import Mathlib

/-!
Verification development for the flatbuffers Rust binding generator
(`src/idl_gen_rust.cpp`).  The definitions below are a shallow embedding of
the generator: pure C++ helpers become Lean functions, the emitted code
templates become functions from the schema IR to structured output, and the
assertion-based failure modes become explicit `Except` errors following the
classification of the design document (UnsupportedSchemaConstruct for
vector-of-union and vector-of-vector, precondition violations for malformed
IR).
-/

namespace IdlGenRust

/-- The 17-value `FullType` enum of `idl_gen_rust.cpp` (lines 60-84). -/
inductive FullType where
  | ftInteger
  | ftFloat
  | ftBool
  | ftStruct
  | ftTable
  | ftEnumKey
  | ftUnionKey
  | ftUnionValue
  | ftString
  | ftVectorOfInteger
  | ftVectorOfFloat
  | ftVectorOfBool
  | ftVectorOfEnumKey
  | ftVectorOfStruct
  | ftVectorOfTable
  | ftVectorOfString
  | ftVectorOfUnionValue
  deriving DecidableEq, Repr

/-- Generation-time failures.  `FLATBUFFERS_ASSERT(false && "vectors of
unions are unsupported")` and `... "vector of vectors are unsupported"` in
`GetFullType` abort generation on an unsupported schema construct; the
remaining asserts ("unknown union field type" etc.) signal a malformed IR
coming from the parser, i.e. a generator precondition violation. -/
inductive GenError where
  | UnsupportedSchemaConstruct
  | PreconditionViolation
  deriving DecidableEq, Repr

/-- The base type carried by a schema `Type` that references an `EnumDef`:
either `BASE_TYPE_UNION` (the union payload pseudo-type), an integer base
type (`IsInteger`, covering `UTYPE` through `ULONG`, the case of union
discriminants and plain enum keys), or anything else (malformed IR). -/
inductive EnumBase where
  | union
  | integer
  | other
  deriving DecidableEq, Repr

/-- A schema `Type` as consumed by `GetFullType`: a string, a reference to a
struct definition (with its `fixed` flag), a vector of a recursively given
element type (`type.VectorType()`), a type referencing an `EnumDef` (with
the `is_union` flag of the enum and the base type of the referencing type
itself), or a plain scalar of bool / integer / float kind. -/
inductive SchemaType where
  | str
  | obj (fixed : Bool)
  | vector (elem : SchemaType)
  | enum (is_union : Bool) (base : EnumBase)
  | scalarBool
  | scalarInt
  | scalarFloat
  deriving DecidableEq, Repr

open FullType SchemaType

/-- `GetFullType` (`idl_gen_rust.cpp` lines 87-158).  The conditionals are
translated branch by branch: string first, then struct-vs-table by the
`fixed` flag, then vector (recursing on the element and rejecting union and
vector results in the inner switch), then the enum cases, then the scalar
kinds.  The `FLATBUFFERS_ASSERT(false)` calls become `Except.error`. -/
def GetFullType : SchemaType → Except GenError FullType
  | .str => .ok ftString
  | .obj fixed => if fixed then .ok ftStruct else .ok ftTable
  | .vector elem =>
      match GetFullType elem with
      | .error e => .error e
      | .ok ftInteger => .ok ftVectorOfInteger
      | .ok ftFloat => .ok ftVectorOfFloat
      | .ok ftBool => .ok ftVectorOfBool
      | .ok ftStruct => .ok ftVectorOfStruct
      | .ok ftTable => .ok ftVectorOfTable
      | .ok ftString => .ok ftVectorOfString
      | .ok ftEnumKey => .ok ftVectorOfEnumKey
      | .ok ftUnionKey => .error .UnsupportedSchemaConstruct
      | .ok ftUnionValue => .error .UnsupportedSchemaConstruct
      | .ok _ => .error .UnsupportedSchemaConstruct
  | .enum is_union base =>
      if is_union then
        match base with
        | .union => .ok ftUnionValue
        | .integer => .ok ftUnionKey
        | .other => .error .PreconditionViolation
      else .ok ftEnumKey
  | .scalarBool => .ok ftBool
  | .scalarInt => .ok ftInteger
  | .scalarFloat => .ok ftFloat

/-- Whether a schema type may appear as the element of a vector: the inner
switch of `GetFullType` accepts integer, float, bool, struct, table, string
and plain enum-key elements, and rejects union keys, union values and
nested vectors. -/
def SupportedVectorElem : SchemaType → Bool
  | .vector _ => false
  | .enum is_union _ => !is_union
  | _ => true

/-- The representable schema types of the data model: string, fixed struct,
table, vector of a supported element, union key, union value, plain enum
key, bool, integer, float.  A type referencing a union enum at a base type
that is neither the union pseudo-type nor an integer is malformed IR and
not representable; a vector is representable when its element is supported
and itself representable. -/
def Representable : SchemaType → Bool
  | .vector elem => SupportedVectorElem elem && Representable elem
  | .enum is_union base => !is_union || (base == .union || base == .integer)
  | _ => true

/-- Helper: a supported, representable vector element classifies to one of
the seven element tags accepted by the inner switch of `GetFullType`. -/
theorem getFullType_elem_supported (t : SchemaType)
    (hs : SupportedVectorElem t = true) (hr : Representable t = true) :
    GetFullType t = .ok ftInteger ∨ GetFullType t = .ok ftFloat ∨
    GetFullType t = .ok ftBool ∨ GetFullType t = .ok ftStruct ∨
    GetFullType t = .ok ftTable ∨ GetFullType t = .ok ftString ∨
    GetFullType t = .ok ftEnumKey := by
  cases t with
  | str => simp [GetFullType]
  | obj fixed => cases fixed <;> simp [GetFullType]
  | vector elem => simp [SupportedVectorElem] at hs
  | enum is_union base =>
      cases is_union with
      | true => simp [SupportedVectorElem] at hs
      | false => simp [GetFullType]
  | scalarBool => simp [GetFullType]
  | scalarInt => simp [GetFullType]
  | scalarFloat => simp [GetFullType]

/-- Helper: on every representable schema type the classifier succeeds. -/
theorem getFullType_total (t : SchemaType) (h : Representable t = true) :
    ∃ ft, GetFullType t = .ok ft := by
  induction t with
  | str => exact ⟨ftString, rfl⟩
  | obj fixed => cases fixed <;> exact ⟨_, rfl⟩
  | vector elem ih =>
      simp only [Representable, Bool.and_eq_true] at h
      rcases getFullType_elem_supported elem h.1 h.2 with
        h' | h' | h' | h' | h' | h' | h'
      · exact ⟨ftVectorOfInteger, by simp [GetFullType, h']⟩
      · exact ⟨ftVectorOfFloat, by simp [GetFullType, h']⟩
      · exact ⟨ftVectorOfBool, by simp [GetFullType, h']⟩
      · exact ⟨ftVectorOfStruct, by simp [GetFullType, h']⟩
      · exact ⟨ftVectorOfTable, by simp [GetFullType, h']⟩
      · exact ⟨ftVectorOfString, by simp [GetFullType, h']⟩
      · exact ⟨ftVectorOfEnumKey, by simp [GetFullType, h']⟩
  | enum is_union base =>
      cases is_union with
      | false => exact ⟨ftEnumKey, rfl⟩
      | true =>
          cases base with
          | union => exact ⟨ftUnionValue, rfl⟩
          | integer => exact ⟨ftUnionKey, rfl⟩
          | other => simp [Representable] at h
  | scalarBool => exact ⟨ftBool, rfl⟩
  | scalarInt => exact ⟨ftInteger, rfl⟩
  | scalarFloat => exact ⟨ftFloat, rfl⟩

/-- C1: on every representable schema type (string, fixed struct, table,
vector of a supported element, union key, union value, plain enum key,
bool, integer, float) the type classifier `GetFullType` succeeds and
returns exactly one `FullType` tag; being a function of the schema type
alone, the tag is the same on every call with the same input. -/
theorem getFullType_total_deterministic (t : SchemaType)
    (h : Representable t = true) :
    ∃! ft : FullType, GetFullType t = .ok ft := by
  obtain ⟨ft, hft⟩ := getFullType_total t h
  exact ⟨ft, hft, fun ft' hft' => by
    rw [hft] at hft'
    exact (Except.ok.injEq _ _ ▸ hft').symm⟩

/-- Witness for C1 at a concrete input: a vector of plain enum keys is
representable and classifies uniquely. -/
theorem getFullType_total_deterministic_witness :
    Representable (SchemaType.vector (SchemaType.enum false .integer)) = true ∧
    ∃! ft : FullType,
      GetFullType (SchemaType.vector (SchemaType.enum false .integer)) =
        .ok ft :=
  ⟨by decide,
   getFullType_total_deterministic
     (SchemaType.vector (SchemaType.enum false .integer)) (by decide)⟩

/-- Whether a schema type references a union enum (union key or value). -/
def IsUnionTy : SchemaType → Bool
  | .enum is_union _ => is_union
  | _ => false

/-- Whether a schema type is a vector. -/
def IsVectorTy : SchemaType → Bool
  | .vector _ => true
  | _ => false

/-- C2: classifying a vector whose element is a union key, a union value or
another (representable) vector always fails with
`UnsupportedSchemaConstruct`, never returning a default tag. -/
theorem getFullType_vector_of_union_or_vector_fails (e : SchemaType)
    (hrep : Representable e = true)
    (hbad : IsUnionTy e = true ∨ IsVectorTy e = true) :
    GetFullType (SchemaType.vector e) = .error .UnsupportedSchemaConstruct := by
  rcases hbad with hu | hv
  · cases e with
    | enum is_union base =>
        cases is_union with
        | false => simp [IsUnionTy] at hu
        | true =>
            cases base with
            | union => rfl
            | integer => rfl
            | other => simp [Representable] at hrep
    | str => simp [IsUnionTy] at hu
    | obj fixed => simp [IsUnionTy] at hu
    | vector elem => simp [IsUnionTy] at hu
    | scalarBool => simp [IsUnionTy] at hu
    | scalarInt => simp [IsUnionTy] at hu
    | scalarFloat => simp [IsUnionTy] at hu
  · cases e with
    | vector elem =>
        obtain ⟨ft, hft⟩ := getFullType_total (SchemaType.vector elem) hrep
        simp only [Representable, Bool.and_eq_true] at hrep
        rcases getFullType_elem_supported elem hrep.1 hrep.2 with
          h' | h' | h' | h' | h' | h' | h' <;>
          simp [GetFullType, h']
    | str => simp [IsVectorTy] at hv
    | obj fixed => simp [IsVectorTy] at hv
    | enum is_union base => simp [IsVectorTy] at hv
    | scalarBool => simp [IsVectorTy] at hv
    | scalarInt => simp [IsVectorTy] at hv
    | scalarFloat => simp [IsVectorTy] at hv

/-- Witness for C2 at concrete inputs: a vector of union values and a
vector of vectors of integers both fail with
`UnsupportedSchemaConstruct`. -/
theorem getFullType_vector_of_union_or_vector_fails_witness :
    GetFullType (SchemaType.vector (SchemaType.enum true .union)) =
      .error .UnsupportedSchemaConstruct ∧
    GetFullType (SchemaType.vector (SchemaType.vector SchemaType.scalarInt)) =
      .error .UnsupportedSchemaConstruct :=
  ⟨getFullType_vector_of_union_or_vector_fails (SchemaType.enum true .union)
      (by decide) (Or.inl (by decide)),
   getFullType_vector_of_union_or_vector_fails
      (SchemaType.vector SchemaType.scalarInt) (by decide)
      (Or.inr (by decide))⟩

/-! ### Byte-level string model

`MakeSnakeCase` and the namespace helpers operate on C++ `std::string`
values, i.e. sequences of bytes.  We model a string as a `List Nat` of byte
values; `islower` and `CharToLower` are the C-locale ASCII predicates used
by flatbuffers (`CharToLower` is `::tolower` on ASCII). -/

/-- ASCII `islower`: byte in 97..122. -/
def IsLowerByte (c : Nat) : Bool := 97 ≤ c && c ≤ 122

/-- flatbuffers `CharToLower` (ASCII `tolower`): map 65..90 to 97..122,
identity elsewhere. -/
def CharToLower (c : Nat) : Nat := if 65 ≤ c && c ≤ 90 then c + 32 else c

/-- The loop body of `MakeSnakeCase` (lines 30-43) for indices `i > 0`;
`prev` is the original previous byte `in[i-1]`.  An underscore (byte 95) is
copied; a non-lowercase byte is lowercased, preceded by an underscore when
the previous original byte was lowercase; a lowercase byte is copied. -/
def mscGo (prev : Nat) : List Nat → List Nat
  | [] => []
  | c :: cs =>
      if c = 95 then 95 :: mscGo c cs
      else if !IsLowerByte c then
        if IsLowerByte prev then 95 :: CharToLower c :: mscGo c cs
        else CharToLower c :: mscGo c cs
      else c :: mscGo c cs

/-- `MakeSnakeCase` (`idl_gen_rust.cpp` lines 28-45): the first byte is
lowercased, the rest is processed by the loop with lookbehind on the
original string. -/
def MakeSnakeCase : List Nat → List Nat
  | [] => []
  | c :: cs => CharToLower c :: mscGo c cs

/-- Byte values of a Lean string literal, for concrete test inputs. -/
def strBytes (s : String) : List Nat := s.data.map Char.toNat

/-- An ASCII letter or underscore. -/
def IsAlphaUnderscoreByte (c : Nat) : Bool :=
  (65 ≤ c && c ≤ 90) || (97 ≤ c && c ≤ 122) || (c == 95)

/-- A lowercase letter or underscore. -/
def IsLowerUnderByte (c : Nat) : Bool := IsLowerByte c || (c == 95)

/-- C10 counterexample: `MakeSnakeCase` is not idempotent.  On input "A1"
the first pass yields "a1" (no underscore is inserted because the original
previous byte, the uppercase "A", is not lowercase), while a second pass
sees the lowercase "a" before the digit and inserts an underscore, giving
"a_1". -/
theorem makeSnakeCase_not_idempotent :
    MakeSnakeCase (strBytes "A1") = strBytes "a1" ∧
    MakeSnakeCase (MakeSnakeCase (strBytes "A1")) = strBytes "a_1" ∧
    ¬ MakeSnakeCase (MakeSnakeCase (strBytes "A1")) =
        MakeSnakeCase (strBytes "A1") := by
  refine ⟨by decide, by decide, by decide⟩

/-- Helper: `CharToLower` never produces an uppercase letter. -/
theorem charToLower_not_upper (x : Nat) :
    ¬ (65 ≤ CharToLower x ∧ CharToLower x ≤ 90) := by
  simp only [CharToLower]
  split <;> rename_i h'
  · simp only [Bool.and_eq_true, decide_eq_true_eq] at h'
    omega
  · simp only [Bool.and_eq_true, decide_eq_true_eq, not_and_or, not_le] at h'
    omega

/-- Helper: `CharToLower` maps a letter or underscore to a lowercase letter
or underscore. -/
theorem charToLower_lowerUnder (x : Nat) (h : IsAlphaUnderscoreByte x = true) :
    IsLowerUnderByte (CharToLower x) = true := by
  simp only [IsAlphaUnderscoreByte, Bool.or_eq_true, beq_iff_eq,
    Bool.and_eq_true, decide_eq_true_eq] at h
  by_cases hu : 65 ≤ x ∧ x ≤ 90
  · have hx : CharToLower x = x + 32 := by simp [CharToLower, hu.1, hu.2]
    rw [hx]
    simp only [IsLowerUnderByte, IsLowerByte, Bool.or_eq_true, beq_iff_eq,
      Bool.and_eq_true, decide_eq_true_eq]
    left; omega
  · have hx : CharToLower x = x := by
      rw [CharToLower, if_neg]
      simp only [Bool.and_eq_true, decide_eq_true_eq]
      exact hu
    rw [hx]
    simp only [IsLowerUnderByte, IsLowerByte, Bool.or_eq_true, beq_iff_eq,
      Bool.and_eq_true, decide_eq_true_eq]
    rcases h with (h1 | h2) | h3
    · exact absurd h1 hu
    · left; exact h2
    · right; exact h3

/-- Helper: `CharToLower` is the identity on lowercase-or-underscore
bytes. -/
theorem charToLower_id_of_lower (c : Nat) (h : IsLowerUnderByte c = true) :
    CharToLower c = c := by
  simp only [IsLowerUnderByte, IsLowerByte, Bool.or_eq_true, beq_iff_eq,
    Bool.and_eq_true, decide_eq_true_eq] at h
  simp only [CharToLower]
  split <;> rename_i h'
  · simp only [Bool.and_eq_true, decide_eq_true_eq] at h'
    omega
  · rfl

/-- Helper: every byte produced by the `MakeSnakeCase` loop is an
underscore, the image under `CharToLower` of an input byte, or a lowercase
input byte copied verbatim. -/
theorem mscGo_mem (l : List Nat) : ∀ prev c, c ∈ mscGo prev l →
    c = 95 ∨ ∃ x ∈ l, c = CharToLower x ∨ (IsLowerByte x = true ∧ c = x) := by
  induction l with
  | nil => intro prev c hc; simp [mscGo] at hc
  | cons x xs ih =>
      intro prev c hc
      have step : ∀ d, d ∈ mscGo x xs →
          d = 95 ∨ ∃ y ∈ x :: xs,
            d = CharToLower y ∨ (IsLowerByte y = true ∧ d = y) := by
        intro d hd
        rcases ih x d hd with h | ⟨y, hy, hdy⟩
        · exact Or.inl h
        · exact Or.inr ⟨y, List.mem_cons_of_mem x hy, hdy⟩
      simp only [mscGo] at hc
      split at hc
      · rcases List.mem_cons.mp hc with rfl | hc
        · exact Or.inl rfl
        · exact step c hc
      · split at hc
        · split at hc
          · rcases List.mem_cons.mp hc with rfl | hc
            · exact Or.inl rfl
            · rcases List.mem_cons.mp hc with rfl | hc
              · exact Or.inr ⟨x, List.mem_cons_self x xs, Or.inl rfl⟩
              · exact step c hc
          · rcases List.mem_cons.mp hc with rfl | hc
            · exact Or.inr ⟨x, List.mem_cons_self x xs, Or.inl rfl⟩
            · exact step c hc
        · rename_i hne hl
          rcases List.mem_cons.mp hc with rfl | hc
          · refine Or.inr ⟨c, List.mem_cons_self c xs, Or.inr ⟨?_, rfl⟩⟩
            cases h' : IsLowerByte c
            · rw [h'] at hl; exact absurd rfl hl
            · rfl
          · exact step c hc

/-- Helper: the loop of `MakeSnakeCase` is the identity on strings made of
lowercase letters and underscores. -/
theorem mscGo_id_of_lower (l : List Nat) :
    (∀ c ∈ l, IsLowerUnderByte c = true) → ∀ prev, mscGo prev l = l := by
  induction l with
  | nil => intro _ _; rfl
  | cons c cs ih =>
      intro h prev
      have hc : IsLowerUnderByte c = true := h c (List.mem_cons_self c cs)
      have hcs : ∀ x ∈ cs, IsLowerUnderByte x = true :=
        fun x hx => h x (List.mem_cons_of_mem c hx)
      simp only [IsLowerUnderByte, Bool.or_eq_true, beq_iff_eq] at hc
      rcases hc with hlow | h95
      · have hne : ¬ c = 95 := by
          simp only [IsLowerByte, Bool.and_eq_true, decide_eq_true_eq] at hlow
          omega
        simp only [mscGo, if_neg hne, hlow, Bool.not_true, Bool.false_eq_true,
          if_false, ih hcs c]
      · subst h95
        simp [mscGo, ih hcs]

/-- C10 amended: `MakeSnakeCase` is idempotent on inputs made of ASCII
letters and underscores (the failure needs a non-letter byte, as in the
"A1" counterexample), and its output never contains an uppercase ASCII
letter. -/
theorem makeSnakeCase_idempotent_on_letters_and_no_upper :
    (∀ l : List Nat, (∀ c ∈ l, IsAlphaUnderscoreByte c = true) →
       MakeSnakeCase (MakeSnakeCase l) = MakeSnakeCase l) ∧
    (∀ l : List Nat, ∀ c ∈ MakeSnakeCase l, ¬ (65 ≤ c ∧ c ≤ 90)) := by
  constructor
  · intro l h
    cases l with
    | nil => rfl
    | cons x xs =>
        have hx : IsAlphaUnderscoreByte x = true := h x (List.mem_cons_self x xs)
        have hxs : ∀ y ∈ xs, IsAlphaUnderscoreByte y = true :=
          fun y hy => h y (List.mem_cons_of_mem x hy)
        have hhead : IsLowerUnderByte (CharToLower x) = true :=
          charToLower_lowerUnder x hx
        have htail : ∀ d ∈ mscGo x xs, IsLowerUnderByte d = true := by
          intro d hd
          rcases mscGo_mem xs x d hd with h95 | ⟨y, hy, hdy | ⟨hyl, rfl⟩⟩
          · subst h95; simp [IsLowerUnderByte]
          · subst hdy; exact charToLower_lowerUnder y (hxs y hy)
          · simp [IsLowerUnderByte, hyl]
        show MakeSnakeCase (CharToLower x :: mscGo x xs) =
          CharToLower x :: mscGo x xs
        simp only [MakeSnakeCase]
        rw [charToLower_id_of_lower _ hhead,
            mscGo_id_of_lower (mscGo x xs) htail (CharToLower x)]
  · intro l c hc
    cases l with
    | nil => simp [MakeSnakeCase] at hc
    | cons x xs =>
        simp only [MakeSnakeCase, List.mem_cons] at hc
        rcases hc with rfl | hc
        · exact charToLower_not_upper x
        · rcases mscGo_mem xs x c hc with h95 | ⟨y, _, hcy | ⟨hyl, rfl⟩⟩
          · subst h95; omega
          · subst hcy; exact charToLower_not_upper y
          · simp only [IsLowerByte, Bool.and_eq_true, decide_eq_true_eq] at hyl
            omega

/-- Witness for the amended C10 theorem at concrete inputs. -/
theorem makeSnakeCase_idempotent_on_letters_and_no_upper_witness :
    MakeSnakeCase (MakeSnakeCase (strBytes "MonsterName")) =
      MakeSnakeCase (strBytes "MonsterName") ∧
    ∀ c ∈ MakeSnakeCase (strBytes "MonsterName"), ¬ (65 ≤ c ∧ c ≤ 90) :=
  ⟨makeSnakeCase_idempotent_on_letters_and_no_upper.1
      (strBytes "MonsterName") (by decide),
   fun c hc =>
     makeSnakeCase_idempotent_on_letters_and_no_upper.2
       (strBytes "MonsterName") c hc⟩

/-! ### Namespace relative traversal (`GetRelativeNamespaceTraversal`) -/

/-- Length of the longest common prefix of two lists, as computed by the
simultaneous-advance loop of `GetRelativeNamespaceTraversal`
(lines 397-409). -/
def lcpLen {α : Type} [DecidableEq α] : List α → List α → Nat
  | s :: ss, d :: ds => if s = d then lcpLen ss ds + 1 else 0
  | _, _ => 0

/-- The bytes of the enclosing-scope token "super::". -/
def superTok : List Nat := strBytes "super::"

/-- The bytes of the path separator "::". -/
def nsSep : List Nat := strBytes "::"

/-- One "super::" token per remaining source component (line 411). -/
def supersFor (l : List (List Nat)) : List Nat :=
  (l.map (fun _ => superTok)).flatten

/-- The remaining destination components, snake-cased and each followed by
"::" (lines 412-414). -/
def dstFor (l : List (List Nat)) : List Nat :=
  (l.map (fun comp => MakeSnakeCase comp ++ nsSep)).flatten

/-- `GetRelativeNamespaceTraversal` (lines 385-416): advance over the
common prefix of the two component lists, then emit one "super::" per
remaining source component followed by the remaining destination
components in snake case, each with a trailing "::". -/
def GetRelativeNamespaceTraversal : List (List Nat) → List (List Nat) → List Nat
  | s :: ss, d :: ds =>
      if s = d then GetRelativeNamespaceTraversal ss ds
      else supersFor (s :: ss) ++ dstFor (d :: ds)
  | ss, ds => supersFor ss ++ dstFor ds

/-- Helper: `CharToLower` never produces a colon from a non-colon byte. -/
theorem charToLower_ne_colon (c : Nat) (h : c ≠ 58) : CharToLower c ≠ 58 := by
  simp only [CharToLower]
  split <;> rename_i h'
  · simp only [Bool.and_eq_true, decide_eq_true_eq] at h'
    omega
  · exact h

/-- C7: the relative namespace reference consists of one "super::" token
per source component beyond the longest common prefix with the
destination, followed by the remaining destination components snake-cased
in order; `A.B.C` to `A.B.D` yields one level up then `d`, `A.B.C` to
`D.E` yields three levels up then `d` then `e`; and, for destination
components that are nonempty and colon-free, the result never begins with
the absolute-path marker "::". -/
theorem getRelativeNamespaceTraversal_spec :
    (∀ src dst : List (List Nat),
       GetRelativeNamespaceTraversal src dst =
         supersFor (src.drop (lcpLen src dst)) ++
           dstFor (dst.drop (lcpLen src dst))) ∧
    GetRelativeNamespaceTraversal
        [strBytes "A", strBytes "B", strBytes "C"]
        [strBytes "A", strBytes "B", strBytes "D"] = strBytes "super::d::" ∧
    GetRelativeNamespaceTraversal
        [strBytes "A", strBytes "B", strBytes "C"]
        [strBytes "D", strBytes "E"] =
      strBytes "super::super::super::d::e::" ∧
    (∀ src dst : List (List Nat),
       (∀ comp ∈ dst, comp ≠ [] ∧ ¬ (58 ∈ comp)) →
       ∀ rest : List Nat,
         GetRelativeNamespaceTraversal src dst ≠ 58 :: rest) := by
  have hdrop : ∀ src dst : List (List Nat),
      GetRelativeNamespaceTraversal src dst =
        supersFor (src.drop (lcpLen src dst)) ++
          dstFor (dst.drop (lcpLen src dst)) := by
    intro src
    induction src with
    | nil => intro dst; simp [GetRelativeNamespaceTraversal, lcpLen]
    | cons s ss ih =>
        intro dst
        cases dst with
        | nil => simp [GetRelativeNamespaceTraversal, lcpLen]
        | cons d ds =>
            by_cases hsd : s = d
            · simp only [GetRelativeNamespaceTraversal, if_pos hsd,
                lcpLen, List.drop_succ_cons]
              exact ih ds
            · simp [GetRelativeNamespaceTraversal, if_neg hsd, lcpLen, hsd]
  refine ⟨hdrop, by decide, by decide, ?_⟩
  intro src dst h rest
  rw [hdrop src dst]
  cases hs : src.drop (lcpLen src dst) with
  | cons s' ss' =>
      intro hcontra
      have : superTok = [115, 117, 112, 101, 114, 58, 58] := by decide
      simp [supersFor, this] at hcontra
  | nil =>
      simp only [supersFor, List.map_nil, List.flatten_nil, List.nil_append]
      cases hd : dst.drop (lcpLen src dst) with
      | nil => simp [dstFor]
      | cons comp rest' =>
          have hmem : comp ∈ dst := by
            have hsub := List.drop_subset (lcpLen src dst) dst
            exact hsub (hd ▸ List.mem_cons_self comp rest')
          obtain ⟨hne, hnc⟩ := h comp hmem
          cases comp with
          | nil => exact absurd rfl hne
          | cons c0 cs =>
              intro hcontra
              simp only [dstFor, List.map_cons, List.flatten_cons,
                MakeSnakeCase, List.cons_append, List.append_assoc] at hcontra
              have hc0 : c0 ≠ 58 := fun hc =>
                hnc (hc ▸ List.mem_cons_self c0 cs)
              exact charToLower_ne_colon c0 hc0 (List.cons.injEq _ _ _ _ ▸
                hcontra).1

/-- Witness for C7 at a concrete input with a nontrivial hypothesis: the
reference from namespace `X` to namespace `Y` is not absolute. -/
theorem getRelativeNamespaceTraversal_spec_witness :
    GetRelativeNamespaceTraversal [strBytes "X"] [strBytes "Y"] ≠ [58] :=
  getRelativeNamespaceTraversal_spec.2.2.2 [strBytes "X"] [strBytes "Y"]
    (by decide) []

/-! ### Namespace scope transitions (`SetNameSpace` and `generate`) -/

/-- A scope event emitted by `SetNameSpace`: closing the innermost open
module, or opening a module (together with its local-import prologue,
`GenNamespaceImports`).  The event carries the raw namespace component. -/
inductive NsEvent where
  | closeMod (comp : List Nat)
  | openMod (comp : List Nat)
  deriving DecidableEq, Repr

/-- The events emitted by one `SetNameSpace` call (lines 1952-1987): with
`L` the longest common prefix length of the current and target paths,
close the current components beyond `L` innermost first, then open the
target components beyond `L` outermost first.  The null namespace of the
C++ (initial state and final reset) is the empty path. -/
def SetNameSpaceEvents (cur target : List (List Nat)) : List NsEvent :=
  let L := lcpLen cur target
  ((cur.drop L).reverse.map NsEvent.closeMod) ++
    ((target.drop L).map NsEvent.openMod)

/-- The scope-event trace and final open path of `generate()`
(lines 236-302): starting from the null namespace, call `SetNameSpace` for
each definition namespace in traversal order, and finally reset to the
null namespace if any namespace is still open. -/
def GeneratePassEvents (calls : List (List (List Nat))) :
    List NsEvent × List (List Nat) :=
  let r := calls.foldl
    (fun acc ns => (acc.1 ++ SetNameSpaceEvents acc.2 ns, ns)) ([], [])
  if r.2 = [] then r else (r.1 ++ SetNameSpaceEvents r.2 [], [])

/-- Replay a scope-event trace against a stack of currently open modules
(outermost first).  A close event must match the innermost open module;
otherwise the trace is ill-nested and replay fails. -/
def replayNs : List NsEvent → List (List Nat) → Option (List (List Nat))
  | [], st => some st
  | NsEvent.openMod c :: evs, st => replayNs evs (st ++ [c])
  | NsEvent.closeMod c :: evs, st =>
      match st.getLast? with
      | none => none
      | some t => if t = c then replayNs evs st.dropLast else none

/-- Helper: replay distributes over concatenation of traces. -/
theorem replayNs_append (a b : List NsEvent) :
    ∀ st, replayNs (a ++ b) st =
      (replayNs a st).bind (fun st' => replayNs b st') := by
  induction a with
  | nil => intro st; rfl
  | cons e evs ih =>
      intro st
      cases e with
      | openMod c =>
          simp only [List.cons_append, replayNs]
          exact ih (st ++ [c])
      | closeMod c =>
          simp only [List.cons_append, replayNs]
          cases st.getLast? with
          | none => rfl
          | some t =>
              by_cases h : t = c
              · simp [h, ih]
              · simp [h]

/-- Helper: replaying the closes of a suffix pops exactly that suffix. -/
theorem replayNs_closes (suf : List (List Nat)) :
    ∀ pre, replayNs (suf.reverse.map NsEvent.closeMod) (pre ++ suf) =
      some pre := by
  induction suf with
  | nil => intro pre; simp [replayNs]
  | cons x rest ih =>
      intro pre
      have : (x :: rest).reverse.map NsEvent.closeMod =
          rest.reverse.map NsEvent.closeMod ++ [NsEvent.closeMod x] := by
        simp
      rw [this, replayNs_append]
      have hpre : pre ++ x :: rest = (pre ++ [x]) ++ rest := by simp
      rw [hpre, ih (pre ++ [x])]
      simp only [Option.some_bind, replayNs, List.getLast?_concat,
        List.dropLast_concat, if_pos]

/-- Helper: replaying opens pushes exactly those components in order. -/
theorem replayNs_opens (ds : List (List Nat)) :
    ∀ st, replayNs (ds.map NsEvent.openMod) st = some (st ++ ds) := by
  induction ds with
  | nil => intro st; simp [replayNs]
  | cons d rest ih =>
      intro st
      simp only [List.map_cons, replayNs, ih (st ++ [d]), List.append_assoc,
        List.singleton_append]

/-- Helper: the common prefix computed by `lcpLen` agrees on both lists. -/
theorem lcpLen_take (s : List (List Nat)) :
    ∀ d, s.take (lcpLen s d) = d.take (lcpLen s d) := by
  induction s with
  | nil => intro d; simp [lcpLen]
  | cons x xs ih =>
      intro d
      cases d with
      | nil => simp [lcpLen]
      | cons y ys =>
          by_cases hxy : x = y
          · subst hxy
            simp [lcpLen, ih ys]
          · simp [lcpLen, hxy]

/-- Helper: every `SetNameSpace` call transforms the open-scope stack from
the current path to the target path, closing innermost first and opening
outermost first. -/
theorem replayNs_closes_drop (l : List (List Nat)) (n : Nat) :
    replayNs ((l.drop n).reverse.map NsEvent.closeMod) l = some (l.take n) := by
  have h := replayNs_closes (l.drop n) (l.take n)
  rwa [List.take_append_drop] at h

/-- Helper: every `SetNameSpace` call transforms the open-scope stack from
the current path to the target path, closing innermost first and opening
outermost first. -/
theorem setNameSpaceEvents_replay (cur target : List (List Nat)) :
    replayNs (SetNameSpaceEvents cur target) cur = some target := by
  simp only [SetNameSpaceEvents]
  rw [replayNs_append, replayNs_closes_drop cur (lcpLen cur target)]
  simp only [Option.some_bind]
  rw [replayNs_opens, lcpLen_take cur target, List.take_append_drop]

/-- Helper: the fold of `generate()` preserves balanced replay. -/
theorem generate_foldl_replay (calls : List (List (List Nat))) :
    ∀ evs cur, replayNs evs [] = some cur →
      replayNs ((calls.foldl
        (fun acc ns => (acc.1 ++ SetNameSpaceEvents acc.2 ns, ns))
        (evs, cur)).1) [] =
      some ((calls.foldl
        (fun acc ns => (acc.1 ++ SetNameSpaceEvents acc.2 ns, ns))
        (evs, cur)).2) := by
  induction calls with
  | nil => intro evs cur h; exact h
  | cons ns rest ih =>
      intro evs cur h
      simp only [List.foldl_cons]
      apply ih
      rw [replayNs_append, h]
      simp only [Option.some_bind]
      exact setNameSpaceEvents_replay cur ns

/-- C8: namespace scope transitions always nest correctly over the whole
pass.  Each `SetNameSpace` call closes from the current path down to the
longest common prefix and opens up to the target, turning the open-scope
stack from the current path into the target path; and the trace of
`generate()` ends with the null path and replays to an empty stack from an
empty stack, so every opened scope is closed exactly once, innermost
first. -/
theorem setNameSpace_generate_nesting :
    (∀ cur target : List (List Nat),
       replayNs (SetNameSpaceEvents cur target) cur = some target) ∧
    (∀ calls : List (List (List Nat)), (GeneratePassEvents calls).2 = []) ∧
    (∀ calls : List (List (List Nat)),
       replayNs (GeneratePassEvents calls).1 [] = some []) := by
  refine ⟨setNameSpaceEvents_replay, ?_, ?_⟩
  · intro calls
    simp only [GeneratePassEvents]
    split <;> rename_i h
    · exact h
    · rfl
  · intro calls
    have hfold := generate_foldl_replay calls [] [] rfl
    simp only [GeneratePassEvents]
    split <;> rename_i h
    · rw [hfold, h]
    · rw [replayNs_append, hfold]
      simp only [Option.some_bind]
      exact setNameSpaceEvents_replay _ []

/-! ### Generated table verifier: union fields (`GenTable`, lines 1332-1374) -/

/-- Outcome of a structural verification step of the generated code. -/
inductive VerifOutcome where
  | ok
  | invalid
  deriving DecidableEq, Repr

/-- A union member as seen by `ForAllUnionVariantsBesidesNone`: the enum
value (discriminant tag), whether its payload type is `BASE_TYPE_NONE`
(such variants are skipped), and the outcome of verifying the claimed
payload position against this member's table shape
(`verify_union_variant`). -/
structure UnionVariantM where
  value : Int
  baseIsNone : Bool
  payloadCheck : VerifOutcome
  deriving DecidableEq, Repr

/-- The match arms emitted for a union-typed field by the verifier section
of `GenTable`: one arm per declared variant besides NONE, in declaration
order, carrying that member's payload verification. -/
def genUnionMatchArms (vs : List UnionVariantM) : List (Int × VerifOutcome) :=
  (vs.filter (fun v => !v.baseIsNone)).map (fun v => (v.value, v.payloadCheck))

/-- Runtime semantics of the emitted Rust `match key` expression: the first
arm whose tag equals the discriminant runs its payload verification; the
trailing wildcard arm returns `Ok(())`. -/
def runUnionMatch : List (Int × VerifOutcome) → Int → VerifOutcome
  | [], _ => .ok
  | (tag, chk) :: rest, key => if key = tag then chk else runUnionMatch rest key

/-- Helper: with pairwise-distinct tags, the match returns the matching
arm's payload outcome. -/
theorem runUnionMatch_found (arms : List (Int × VerifOutcome)) (key : Int)
    (out : VerifOutcome)
    (hnodup : arms.Pairwise (fun a b => a.1 ≠ b.1))
    (hmem : (key, out) ∈ arms) : runUnionMatch arms key = out := by
  induction arms with
  | nil => simp at hmem
  | cons a rest ih =>
      obtain ⟨tag, chk⟩ := a
      rcases List.mem_cons.mp hmem with heq | hmem'
      · obtain ⟨h1, h2⟩ := Prod.mk.injEq _ _ _ _ ▸ heq
        simp [runUnionMatch, h1, h2]
      · have hne : key ≠ tag := by
          intro hk
          have := (List.pairwise_cons.mp hnodup).1 (key, out) hmem'
          simp at this
          exact this (hk ▸ rfl)
        simp only [runUnionMatch, if_neg hne]
        exact ih (List.pairwise_cons.mp hnodup).2 hmem'

/-- Helper: when no arm's tag equals the discriminant, the wildcard arm
yields ok. -/
theorem runUnionMatch_notfound (arms : List (Int × VerifOutcome)) (key : Int)
    (h : ∀ a ∈ arms, a.1 ≠ key) : runUnionMatch arms key = .ok := by
  induction arms with
  | nil => rfl
  | cons a rest ih =>
      obtain ⟨tag, chk⟩ := a
      have hne : key ≠ tag :=
        fun hk => h (tag, chk) (List.mem_cons_self _ _) hk.symm
      simp only [runUnionMatch, if_neg hne]
      exact ih (fun a ha => h a (List.mem_cons_of_mem _ ha))

/-- C3: in the generated verifier of a table, a union-typed field with
pairwise-distinct declared tags verifies as follows: when the discriminant
equals the tag of a declared non-NONE member, the result is exactly that
member's payload verification (so a failing payload check is a hard
verification failure), and when the discriminant matches no declared
member, the field verifies as vacuously valid. -/
theorem genTable_union_field_verification (vs : List UnionVariantM)
    (key : Int)
    (hnodup : (vs.filter (fun v => !v.baseIsNone)).Pairwise
      (fun a b => a.value ≠ b.value)) :
    (∀ v ∈ vs, v.baseIsNone = false → v.value = key →
       runUnionMatch (genUnionMatchArms vs) key = v.payloadCheck) ∧
    ((∀ v ∈ vs, v.baseIsNone = false → v.value ≠ key) →
       runUnionMatch (genUnionMatchArms vs) key = .ok) := by
  constructor
  · intro v hv hnone hval
    apply runUnionMatch_found
    · exact List.Pairwise.map _ (fun a b h => h) hnodup
    · have hvf : v ∈ vs.filter (fun v => !v.baseIsNone) :=
        List.mem_filter.mpr ⟨hv, by simp [hnone]⟩
      have hm : (v.value, v.payloadCheck) ∈ genUnionMatchArms vs :=
        List.mem_map_of_mem _ hvf
      rw [hval] at hm
      exact hm
  · intro h
    apply runUnionMatch_notfound
    intro a ha
    simp only [genUnionMatchArms, List.mem_map, List.mem_filter] at ha
    obtain ⟨v, ⟨hv, hnone⟩, rfl⟩ := ha
    simp only [Bool.not_eq_true'] at hnone
    exact h v hv hnone

/-- Witness for C3 at a concrete union with two members: the discriminant 1
selects the first member's failing payload check, and the discriminant 7
matches nothing and verifies vacuously. -/
theorem genTable_union_field_verification_witness :
    runUnionMatch
        (genUnionMatchArms
          [⟨0, true, .ok⟩, ⟨1, false, .invalid⟩, ⟨2, false, .ok⟩]) 1 =
      .invalid ∧
    runUnionMatch
        (genUnionMatchArms
          [⟨0, true, .ok⟩, ⟨1, false, .invalid⟩, ⟨2, false, .ok⟩]) 7 =
      .ok :=
  ⟨(genTable_union_field_verification
      [⟨0, true, .ok⟩, ⟨1, false, .invalid⟩, ⟨2, false, .ok⟩] 1
      (by decide)).1 ⟨1, false, .invalid⟩ (by decide) rfl rfl,
   (genTable_union_field_verification
      [⟨0, true, .ok⟩, ⟨1, false, .invalid⟩, ⟨2, false, .ok⟩] 7
      (by decide)).2 (by decide)⟩

/-! ### Generated builder `finish()`: required-field checks
(`GenTable`, lines 1452-1467) -/

/-- A table field as consumed by the `finish()` emission loop: its name,
virtual-offset constant, and the `required` and `deprecated` flags. -/
structure TableFieldM where
  name : List Nat
  offset : Nat
  required : Bool
  deprecated : Bool
  deriving DecidableEq, Repr

/-- The presence checks emitted inside `finish()`: `ForAllTableFields`
skips deprecated fields, and the callback skips fields that are not
required; every remaining field gets one `self.fbb_.required(o, offset,
name)` call. -/
def genFinishRequiredChecks : List TableFieldM → List (Nat × List Nat)
  | [] => []
  | f :: fs =>
      if f.deprecated then genFinishRequiredChecks fs
      else if f.required then (f.offset, f.name) :: genFinishRequiredChecks fs
      else genFinishRequiredChecks fs

/-- Runtime semantics of the emitted `finish()`: it succeeds exactly when
every emitted presence check finds its slot written, where `added off`
tells whether the add-operation for the field with virtual offset `off`
was invoked. -/
def finishSucceeds (fields : List TableFieldM) (added : Nat → Bool) : Bool :=
  (genFinishRequiredChecks fields).all (fun c => added c.1)

/-- C4: `finish()` emits one presence check per non-deprecated required
field and none for any other field, and consequently it reports a failure
exactly when some non-deprecated required field's add-operation was never
invoked. -/
theorem genTable_finish_required_checks :
    (∀ fields : List TableFieldM,
       genFinishRequiredChecks fields =
         (fields.filter (fun f => !f.deprecated && f.required)).map
           (fun f => (f.offset, f.name))) ∧
    (∀ (fields : List TableFieldM) (added : Nat → Bool),
       finishSucceeds fields added = false ↔
         ∃ f ∈ fields, f.deprecated = false ∧ f.required = true ∧
           added f.offset = false) := by
  have hchecks : ∀ fields : List TableFieldM,
      genFinishRequiredChecks fields =
        (fields.filter (fun f => !f.deprecated && f.required)).map
          (fun f => (f.offset, f.name)) := by
    intro fields
    induction fields with
    | nil => rfl
    | cons f fs ih =>
        cases hd : f.deprecated with
        | true => simp [genFinishRequiredChecks, hd, ih]
        | false =>
            cases hr : f.required with
            | true => simp [genFinishRequiredChecks, hd, hr, ih]
            | false => simp [genFinishRequiredChecks, hd, hr, ih]
  refine ⟨hchecks, ?_⟩
  intro fields added
  rw [finishSucceeds, hchecks]
  constructor
  · intro h
    have : ¬ ((fields.filter (fun f => !f.deprecated && f.required)).map
        (fun f => (f.offset, f.name))).all (fun c => added c.1) = true := by
      rw [h]; simp
    rw [List.all_eq_true] at this
    push_neg at this
    obtain ⟨c, hc, hcadd⟩ := this
    simp only [List.mem_map, List.mem_filter, Bool.and_eq_true,
      Bool.not_eq_true'] at hc
    obtain ⟨f, ⟨hf, hd, hr⟩, rfl⟩ := hc
    exact ⟨f, hf, hd, hr, by
      cases hadd : added f.offset
      · rfl
      · exact absurd hadd hcadd⟩
  · intro ⟨f, hf, hd, hr, hadd⟩
    cases hall : ((fields.filter (fun f => !f.deprecated && f.required)).map
        (fun f => (f.offset, f.name))).all (fun c => added c.1) with
    | false => rfl
    | true =>
        rw [List.all_eq_true] at hall
        have hmem : (f.offset, f.name) ∈
            (fields.filter (fun f => !f.deprecated && f.required)).map
              (fun f => (f.offset, f.name)) := by
          apply List.mem_map_of_mem
          exact List.mem_filter.mpr ⟨hf, by simp [hd, hr]⟩
        have := hall _ hmem
        rw [hadd] at this
        exact absurd this (by simp)

/-! ### Generated `create` function: add-operation ordering
(`GenTable`, lines 1200-1216) -/

/-- A table field as consumed by the `create` emission loop: its name, the
scalar width `SizeOf(field.value.type.base_type)` in bytes, and the
`deprecated` flag. -/
structure CreateFieldM where
  name : List Nat
  size : Nat
  deprecated : Bool
  deriving DecidableEq, Repr

/-- The size classes visited by `for (size_t size = init; size; size /= 2)`:
the sequence `init, init/2, ...` down to (and excluding) zero. -/
def sizesFrom (n : Nat) : List Nat :=
  if h : n = 0 then [] else n :: sizesFrom (n / 2)
decreasing_by exact Nat.div_lt_self (Nat.pos_of_ne_zero h) (by omega)

/-- One pass of the `create` loop body: `ForAllTableFields` iterates the
fields in reverse declaration order, skipping deprecated fields, and the
callback skips a field when pack-by-size is set and the size class does
not equal the field's width. -/
def createAddPass (sortbysize : Bool) (size : Nat)
    (fields : List CreateFieldM) : List CreateFieldM :=
  fields.reverse.filter
    (fun f => !f.deprecated && !(sortbysize && size != f.size))

/-- The full add-operation order of the generated `create` function: the
outer loop starts at `sizeof(largest_scalar_t) = 8` when the struct has
the pack-by-size (`sortbysize`) flag and at 1 otherwise, halving to zero,
with one field pass per size class. -/
def createAddOrder (sortbysize : Bool)
    (fields : List CreateFieldM) : List CreateFieldM :=
  (sizesFrom (if sortbysize then 8 else 1)).flatMap
    (fun size => createAddPass sortbysize size fields)

/-- Helper: the size-class sequence from 8 is 8, 4, 2, 1. -/
theorem sizesFrom_eight : sizesFrom 8 = [8, 4, 2, 1] := by
  simp [sizesFrom]

/-- Helper: the size-class sequence from 1 is just 1. -/
theorem sizesFrom_one : sizesFrom 1 = [1] := by
  simp [sizesFrom]

/-- C5: without pack-by-size, the generated `create` adds every
non-deprecated field exactly once in reverse declaration order; with
pack-by-size, it iterates the size classes 8, 4, 2, 1 and within each
class adds the non-deprecated fields of exactly that width in reverse
declaration order; in particular fields of widths 8, 1, 4 declared in that
order are added as the 8-byte field, then the 4-byte field, then the
1-byte field. -/
theorem genTable_create_add_order :
    (∀ fields : List CreateFieldM,
       createAddOrder false fields =
         fields.reverse.filter (fun f => !f.deprecated)) ∧
    (∀ fields : List CreateFieldM,
       createAddOrder true fields =
         [8, 4, 2, 1].flatMap (fun s =>
           fields.reverse.filter
             (fun f => !f.deprecated && f.size == s))) ∧
    createAddOrder true
        [⟨strBytes "a", 8, false⟩, ⟨strBytes "b", 1, false⟩,
         ⟨strBytes "c", 4, false⟩] =
      [⟨strBytes "a", 8, false⟩, ⟨strBytes "c", 4, false⟩,
       ⟨strBytes "b", 1, false⟩] := by
  have hpass : ∀ (s : Nat) (fields : List CreateFieldM),
      createAddPass true s fields =
        fields.reverse.filter (fun f => !f.deprecated && f.size == s) := by
    intro s fields
    apply List.filter_congr
    intro f _
    by_cases h : f.size = s
    · subst h; simp [bne]
    · have e1 : (s == f.size) = false :=
        beq_eq_false_iff_ne.mpr (fun hs => h hs.symm)
      have e2 : (f.size == s) = false := beq_eq_false_iff_ne.mpr h
      simp [bne, e1, e2]
  have hone : ∀ fields : List CreateFieldM,
      createAddOrder false fields =
        fields.reverse.filter (fun f => !f.deprecated) := by
    intro fields
    simp only [createAddOrder, Bool.false_eq_true, if_false, sizesFrom_one,
      List.flatMap_cons, List.flatMap_nil, List.append_nil, createAddPass,
      Bool.false_and, Bool.not_false, Bool.and_true]
  have hsort : ∀ fields : List CreateFieldM,
      createAddOrder true fields =
        [8, 4, 2, 1].flatMap (fun s =>
          fields.reverse.filter (fun f => !f.deprecated && f.size == s)) := by
    intro fields
    simp only [createAddOrder, if_true, sizesFrom_eight]
    simp only [List.flatMap_cons, List.flatMap_nil, hpass]
  refine ⟨hone, hsort, ?_⟩
  rw [hsort]
  decide

/-! ### Generated table accessors: absence exposure
(`GenTableAccessorFuncReturnType`, lines 915-994, and
`GenTableAccessorFuncBody`, lines 1059-1079) -/

/-- `WrapInOptionIfNotRequired` (lines 161-167). -/
def WrapInOptionIfNotRequired (s : String) (required : Bool) : String :=
  if required then s else "Option<" ++ s ++ ">"

/-- `AddUnwrapIfRequired` (lines 170-176). -/
def AddUnwrapIfRequired (s : String) (required : Bool) : String :=
  if required then s ++ ".unwrap()" else s

/-- The scalar full types: integer, float, bool, enum key, union key.  In
the accessor return type these take the bare type name, wrapped in
`Option` only when the field is optional. -/
def IsScalarTag : FullType → Bool
  | ftInteger | ftFloat | ftBool | ftEnumKey | ftUnionKey => true
  | _ => false

/-- The reference-typed (pointer-ish) full types that a table accessor
supports: struct, table, union value, string, and the supported vectors
(`GenTableAccessorFuncReturnType` asserts on vector-of-union-value). -/
def IsReferenceTag : FullType → Bool
  | ftStruct | ftTable | ftUnionValue | ftString => true
  | ftVectorOfInteger | ftVectorOfFloat | ftVectorOfBool => true
  | ftVectorOfEnumKey | ftVectorOfStruct | ftVectorOfTable => true
  | ftVectorOfString => true
  | _ => false

/-- `GenTableAccessorFuncReturnType`, case by case.  `typname` stands for
the field type name the C++ obtains from `GetTypeBasic` /
`WrapInNameSpace`, `lifetime` for the lifetime parameter, and `oneByte`
for `IsOneByte(type.VectorType().base_type)`.  The
vector-of-union-value case asserts in the C++ and yields `none` here. -/
def GenTableAccessorFuncReturnType (ft : FullType) (optional required : Bool)
    (lifetime typname : String) (oneByte : Bool) : Option String :=
  match ft with
  | ftInteger | ftFloat | ftBool =>
      some (if optional then "Option<" ++ typname ++ ">" else typname)
  | ftStruct =>
      some (WrapInOptionIfNotRequired
        ("&" ++ lifetime ++ " " ++ typname) required)
  | ftTable =>
      some (WrapInOptionIfNotRequired
        (typname ++ "<" ++ lifetime ++ ">") required)
  | ftEnumKey | ftUnionKey =>
      some (if optional then "Option<" ++ typname ++ ">" else typname)
  | ftUnionValue =>
      some (WrapInOptionIfNotRequired
        ("flatbuffers::Table<" ++ lifetime ++ ">") required)
  | ftString =>
      some (WrapInOptionIfNotRequired
        ("&" ++ lifetime ++ " str") required)
  | ftVectorOfInteger | ftVectorOfBool | ftVectorOfFloat =>
      if oneByte then
        some (WrapInOptionIfNotRequired
          ("&" ++ lifetime ++ " [" ++ typname ++ "]") required)
      else
        some (WrapInOptionIfNotRequired
          ("flatbuffers::Vector<" ++ lifetime ++ ", " ++ typname ++ ">")
          required)
  | ftVectorOfEnumKey =>
      some (WrapInOptionIfNotRequired
        ("flatbuffers::Vector<" ++ lifetime ++ ", " ++ typname ++ ">")
        required)
  | ftVectorOfStruct =>
      some (WrapInOptionIfNotRequired
        ("&" ++ lifetime ++ " [" ++ typname ++ "]") required)
  | ftVectorOfTable =>
      some (WrapInOptionIfNotRequired
        ("flatbuffers::Vector<" ++ lifetime ++ ", flatbuffers::ForwardsUOffset<"
          ++ typname ++ "<" ++ lifetime ++ ">>>") required)
  | ftVectorOfString =>
      some (WrapInOptionIfNotRequired
        ("flatbuffers::Vector<" ++ lifetime ++ ", flatbuffers::ForwardsUOffset<&"
          ++ lifetime ++ " str>>") required)
  | ftVectorOfUnionValue => none

/-- The raw accessor body template of `GenTableAccessorFuncBody` after
placeholder substitution: a single `self._tab.get` call with the default
argument, the optional safe-slice adapter, and the optional unwrap. -/
def accessorBodyStr (typname structName vtOffset defaultArg safeSlice
    unwrap : String) : String :=
  "self._tab.get::<" ++ typname ++ ">(" ++ structName ++ "::" ++ vtOffset ++
    ", " ++ defaultArg ++ ")" ++ safeSlice ++ unwrap

/-- The safe-slice adapter (lines 1071-1075): emitted for vector-of-struct
and for one-byte vectors of bool / float / integer. -/
def safeSliceStr (ft : FullType) (oneByte : Bool) : String :=
  if ft == ftVectorOfStruct ||
      ((ft == ftVectorOfBool || ft == ftVectorOfFloat ||
        ft == ftVectorOfInteger) && oneByte)
  then ".map(|v| v.safe_slice())" else ""

/-- `GenTableAccessorFuncBody` (lines 1059-1079): the default value is
passed to the read exactly when the field is neither optional nor required
(`Some(default)`, otherwise `None`), and the result is unwrapped exactly
when the field is not optional. -/
def GenTableAccessorFuncBody (ft : FullType) (optional required oneByte : Bool)
    (typname structName vtOffset defaultVal : String) : String :=
  accessorBodyStr typname structName vtOffset
    (if !(optional || required) then "Some(" ++ defaultVal ++ ")" else "None")
    (safeSliceStr ft oneByte)
    (if optional then "" else ".unwrap()")

/-- C6: the generated accessor exposes absence exactly as classified by
the field flags and type.  A scalar-tagged field that is not optional gets
the bare type name as return type (never an absence wrapper), and when
additionally not required its body folds the declared default into the
read and unwraps; a reference-tagged field that is neither optional nor
required still returns a presence wrapper `Option<...>`. -/
theorem genTableAccessor_absence_exposure :
    (∀ (ft : FullType) (req : Bool) (lt tn : String) (ob : Bool),
       IsScalarTag ft = true →
       GenTableAccessorFuncReturnType ft false req lt tn ob = some tn) ∧
    (∀ (ft : FullType) (ob : Bool) (tn sn off dv : String),
       IsScalarTag ft = true →
       GenTableAccessorFuncBody ft false false ob tn sn off dv =
         accessorBodyStr tn sn off ("Some(" ++ dv ++ ")") "" ".unwrap()") ∧
    (∀ (ft : FullType) (lt tn : String) (ob : Bool),
       IsReferenceTag ft = true →
       ∃ inner, GenTableAccessorFuncReturnType ft false false lt tn ob =
         some ("Option<" ++ inner ++ ">")) := by
  refine ⟨?_, ?_, ?_⟩
  · intro ft req lt tn ob h
    cases ft <;> simp_all [IsScalarTag, GenTableAccessorFuncReturnType]
  · intro ft ob tn sn off dv h
    have hss : safeSliceStr ft ob = "" := by
      cases ft <;> simp_all [IsScalarTag, safeSliceStr]
    simp [GenTableAccessorFuncBody, hss]
  · intro ft lt tn ob h
    cases ft with
    | ftStruct => exact ⟨_, rfl⟩
    | ftTable => exact ⟨_, rfl⟩
    | ftUnionValue => exact ⟨_, rfl⟩
    | ftString => exact ⟨_, rfl⟩
    | ftVectorOfInteger => cases ob <;> exact ⟨_, rfl⟩
    | ftVectorOfBool => cases ob <;> exact ⟨_, rfl⟩
    | ftVectorOfFloat => cases ob <;> exact ⟨_, rfl⟩
    | ftVectorOfEnumKey => exact ⟨_, rfl⟩
    | ftVectorOfStruct => exact ⟨_, rfl⟩
    | ftVectorOfTable => exact ⟨_, rfl⟩
    | ftVectorOfString => exact ⟨_, rfl⟩
    | ftInteger => simp [IsReferenceTag] at h
    | ftFloat => simp [IsReferenceTag] at h
    | ftBool => simp [IsReferenceTag] at h
    | ftEnumKey => simp [IsReferenceTag] at h
    | ftUnionKey => simp [IsReferenceTag] at h
    | ftVectorOfUnionValue => simp [IsReferenceTag] at h

/-- Witness for C6 at concrete fields: a non-optional integer field
returns the bare type with its default folded in, and a table-typed field
that is neither optional nor required returns an `Option`. -/
theorem genTableAccessor_absence_exposure_witness :
    GenTableAccessorFuncReturnType FullType.ftInteger false false "" "u32"
        false = some "u32" ∧
    GenTableAccessorFuncBody FullType.ftInteger false false false "u32"
        "Monster" "VT_HP" "100" =
      accessorBodyStr "u32" "Monster" "VT_HP" ("Some(" ++ "100" ++ ")") ""
        ".unwrap()" ∧
    ∃ inner, GenTableAccessorFuncReturnType FullType.ftTable false false ""
        "Weapon" false = some ("Option<" ++ inner ++ ">") :=
  ⟨genTableAccessor_absence_exposure.1 FullType.ftInteger false "" "u32"
      false rfl,
   genTableAccessor_absence_exposure.2.1 FullType.ftInteger false "u32"
      "Monster" "VT_HP" "100" rfl,
   genTableAccessor_absence_exposure.2.2 FullType.ftTable "" "Weapon" false
      rfl⟩

/-! ### Generated fixed structs: representation and padding
(`GenPadding`, lines 1705-1726, and `GenStruct`, lines 1745-1911) -/

/-- The kind of a fixed-struct field as the struct emitter distinguishes
it (`IsStruct(field.value.type)`): a scalar (or enum) field of its
`SizeOf` byte width, or a nested fixed struct with its declared
`bytesize`. -/
inductive StructFieldKind where
  | scalar (size : Nat)
  | nested (bytesize : Nat)
  deriving DecidableEq, Repr

/-- A field of a fixed struct: its kind and the padding bit-mask that
follows it (`FieldDef::padding`; bit `i` stands for a padding member of
`8 * 2^i` bits, so the mask value is also the padding byte count). -/
structure StructFieldM where
  name : List Nat
  kind : StructFieldKind
  padding : Nat
  deriving DecidableEq, Repr

/-- A fixed struct definition: name, minimum alignment, total byte size,
ordered fields. -/
structure StructDefM where
  name : String
  minalign : Nat
  bytesize : Nat
  fields : List StructFieldM
  deriving Repr

/-- `SizeOf(field.value.type.base_type)`, the width the offset cursor of
`ForAllStructFields` adds per field (line 1741): the scalar width, or
`sizeof(Offset<void>) = 4` for `BASE_TYPE_STRUCT`. -/
def SizeOfBase : StructFieldKind → Nat
  | .scalar size => size
  | .nested _ => 4

/-- The byte count the emitted setter writes (lines 1884-1904): the
nested-struct setter copies `FIELD_SIZE = struct_def->bytesize` with
`copy_from_slice` (lines 1886-1892), every other setter copies
`core::mem::size_of::<FIELD_TYPE>() = SizeOf(base_type)`
(lines 1893-1903).  For a nested-struct field the two widths differ
whenever the nested byte size is not 4. -/
def setterWriteWidth : StructFieldKind → Nat
  | .scalar size => size
  | .nested bytesize => bytesize

/-- Whether a field kind is the scalar (non-nested) case. -/
def isScalarKind : StructFieldKind → Bool
  | .scalar _ => true
  | .nested _ => false

/-- `GenPadding` (lines 1705-1716): the padding member bit widths demanded
by a field's padding mask, `(1 << i) * 8` for each set bit `i < 4`. -/
def GenPadding (padding : Nat) : List Nat :=
  if padding ≠ 0 then
    ([0, 1, 2, 3].filter (fun i => padding.testBit i)).map (fun i => 2 ^ i * 8)
  else []

/-- The struct declaration emitted by `GenStruct` (lines 1760-1763): an
opaque `#[repr(transparent)]` wrapper around a byte array of the declared
size, with no per-field (and no padding) members at all. -/
def GenStructDefnLines (sd : StructDefM) : List String :=
  ["// struct " ++ sd.name ++ ", aligned to " ++ toString sd.minalign,
   "#[repr(transparent)]",
   "#[derive(Clone, Copy, PartialEq)]",
   "pub struct " ++ sd.name ++ "(pub [u8; " ++ toString sd.bytesize ++ "]);"]

/-- Substring test over character lists. -/
def containsSub (pat hay : List Char) : Bool :=
  hay.tails.any (fun t => pat.isPrefixOf t)

/-- The cumulative field offsets computed by `ForAllStructFields`
(lines 1728-1743): `offset_to_field` starts at 0 and advances by
`SizeOf(field.value.type.base_type) + field.padding` — note this uses the
base-type width (4 for a nested struct), not the setter's write width. -/
def structFieldOffsetsGo (off : Nat) :
    List StructFieldM → List (Nat × StructFieldM)
  | [] => []
  | f :: fs => (off, f) ::
      structFieldOffsetsGo (off + SizeOfBase f.kind + f.padding) fs

/-- Offsets of all fields of a struct, starting at zero. -/
def structFieldOffsets (fields : List StructFieldM) :
    List (Nat × StructFieldM) :=
  structFieldOffsetsGo 0 fields

/-- Write `len` bytes from `src` into `buf` at offset `off`; the effect of
one generated setter call. -/
def writeBytes (buf : Nat → Nat) (off len : Nat) (src : Nat → Nat) :
    Nat → Nat :=
  fun p => if off ≤ p ∧ p < off + len then src (p - off) else buf p

/-- Byte-level semantics of the generated full-field constructor `new`
(lines 1838-1853): start from the all-zero array `Self([0; SIZE])`, then
run every field setter in declaration order at its cursor offset, writing
`setterWriteWidth` bytes; `w off` gives the bytes the setter at offset
`off` writes. -/
def structNewBytes (sd : StructDefM) (w : Nat → Nat → Nat) : Nat → Nat :=
  (structFieldOffsets sd.fields).foldl
    (fun buf of => writeBytes buf of.1 (setterWriteWidth of.2.kind) (w of.1))
    (fun _ => 0)

/-- C9 counterexample: the claim fails in both halves.  First, for a
struct whose second field carries the nonzero padding mask 1 (demanding
one 8-bit padding member by `GenPadding`), the emitted struct definition
contains no synthesized `padding` member at all: `GenStruct` never calls
`GenPadding` and represents the struct as an opaque byte array.  Second,
the constructor does not zero all padding bytes either: for a struct
whose first field is a nested 12-byte struct with padding mask 4, the
offset cursor places the padding bytes at 4..8 (it advances by
`SizeOf(BASE_TYPE_STRUCT) = 4`), while the nested setter copies all 12
bytes of the nested struct, so padding byte 5 receives the setter's
data (255 here), not zero. -/
theorem genStruct_padding_members_counterexample :
    GenPadding 1 = [8] ∧
    ¬ ((GenStructDefnLines
          ⟨"Vec3", 4, 16,
           [⟨strBytes "x", .scalar 4, 0⟩, ⟨strBytes "y", .scalar 4, 1⟩]⟩).any
        (fun l => containsSub ("padding".data) l.data) = true) ∧
    structNewBytes
        ⟨"Outer", 8, 24,
         [⟨strBytes "inner", .nested 12, 4⟩, ⟨strBytes "x", .scalar 8, 0⟩]⟩
        (fun _ _ => 255) (0 + SizeOfBase (.nested 12) + 1) = 255 := by
  refine ⟨by decide, by decide, by decide⟩

/-- Helper: a byte position outside every setter-written range is
untouched by the setter folds. -/
theorem structNew_foldl_outside (l : List (Nat × StructFieldM))
    (w : Nat → Nat → Nat) (p : Nat)
    (h : ∀ of ∈ l, ¬ (of.1 ≤ p ∧ p < of.1 + setterWriteWidth of.2.kind)) :
    ∀ buf : Nat → Nat,
      (l.foldl
        (fun buf of => writeBytes buf of.1 (setterWriteWidth of.2.kind)
          (w of.1)) buf) p = buf p := by
  induction l with
  | nil => intro buf; rfl
  | cons of rest ih =>
      intro buf
      have hof := h of (List.mem_cons_self _ _)
      have hrest : ∀ x ∈ rest,
          ¬ (x.1 ≤ p ∧ p < x.1 + setterWriteWidth x.2.kind) :=
        fun x hx => h x (List.mem_cons_of_mem _ hx)
      simp only [List.foldl_cons, ih hrest]
      simp [writeBytes, hof]

/-- Helper: every emitted offset is at least the starting cursor. -/
theorem structFieldOffsetsGo_le (fields : List StructFieldM) :
    ∀ (start : Nat), ∀ e ∈ structFieldOffsetsGo start fields, start ≤ e.1 := by
  induction fields with
  | nil => intro start e he; simp [structFieldOffsetsGo] at he
  | cons g gs ih =>
      intro start e he
      rcases List.mem_cons.mp he with rfl | htail
      · exact Nat.le_refl start
      · have := ih (start + SizeOfBase g.kind + g.padding) e htail
        omega

/-- Helper: in a struct all of whose fields are scalars, each field's
padding positions (the bytes between the field's end and the next
cursor position) lie outside every setter-written range. -/
theorem structFieldOffsetsGo_pad_disjoint (fields : List StructFieldM)
    (hscalar : ∀ f ∈ fields, isScalarKind f.kind = true) :
    ∀ (start : Nat), ∀ e1 ∈ structFieldOffsetsGo start fields,
    ∀ q, q < e1.2.padding →
    ∀ e2 ∈ structFieldOffsetsGo start fields,
      ¬ (e2.1 ≤ e1.1 + SizeOfBase e1.2.kind + q ∧
         e1.1 + SizeOfBase e1.2.kind + q <
           e2.1 + setterWriteWidth e2.2.kind) := by
  induction fields with
  | nil => intro start e1 he1; simp [structFieldOffsetsGo] at he1
  | cons g gs ih =>
      intro start e1 he1 q hq e2 he2
      have hg : isScalarKind g.kind = true := hscalar g (List.mem_cons_self _ _)
      have hgs : ∀ f ∈ gs, isScalarKind f.kind = true :=
        fun f hf => hscalar f (List.mem_cons_of_mem _ hf)
      have hwg : setterWriteWidth g.kind = SizeOfBase g.kind := by
        cases hk : g.kind with
        | scalar s => rfl
        | nested bs => rw [hk] at hg; simp [isScalarKind] at hg
      rcases List.mem_cons.mp he1 with rfl | h1t
      · rcases List.mem_cons.mp he2 with rfl | h2t
        · dsimp only at hq ⊢
          rw [hwg]
          omega
        · have hle := structFieldOffsetsGo_le gs
            (start + SizeOfBase g.kind + g.padding) e2 h2t
          dsimp only at hq ⊢
          intro hc
          omega
      · rcases List.mem_cons.mp he2 with rfl | h2t
        · have hle := structFieldOffsetsGo_le gs
            (start + SizeOfBase g.kind + g.padding) e1 h1t
          dsimp only at hq ⊢
          rw [hwg]
          intro hc
          omega
        · exact ih hgs (start + SizeOfBase g.kind + g.padding) e1 h1t q hq
            e2 h2t

/-- C9 amended: the generated struct is an opaque zero-initialized byte
array with no interleaved padding members, so the full-field constructor
leaves every byte no setter writes equal to zero; and for a struct all of
whose fields are scalars — where the setter write width equals the cursor
width — every padding byte is zero.  (For a nested-struct field the
setter copies the nested byte size while the cursor advances by 4, so its
write may spill into the padding region, as the counterexample shows.) -/
theorem genStruct_constructor_zeroes_padding :
    (∀ (sd : StructDefM) (w : Nat → Nat → Nat) (p : Nat),
       (∀ of ∈ structFieldOffsets sd.fields,
          ¬ (of.1 ≤ p ∧ p < of.1 + setterWriteWidth of.2.kind)) →
       structNewBytes sd w p = 0) ∧
    (∀ (sd : StructDefM) (w : Nat → Nat → Nat),
       (∀ f ∈ sd.fields, isScalarKind f.kind = true) →
       ∀ of ∈ structFieldOffsets sd.fields, ∀ q, q < of.2.padding →
         structNewBytes sd w (of.1 + SizeOfBase of.2.kind + q) = 0) := by
  have houtside : ∀ (sd : StructDefM) (w : Nat → Nat → Nat) (p : Nat),
      (∀ of ∈ structFieldOffsets sd.fields,
         ¬ (of.1 ≤ p ∧ p < of.1 + setterWriteWidth of.2.kind)) →
      structNewBytes sd w p = 0 := by
    intro sd w p h
    rw [structNewBytes, structNew_foldl_outside _ w p h]
  refine ⟨houtside, ?_⟩
  intro sd w hscalar of hof q hq
  exact houtside sd w (of.1 + SizeOfBase of.2.kind + q)
    (fun e2 he2 =>
      structFieldOffsetsGo_pad_disjoint sd.fields hscalar 0 of hof q hq e2 he2)

/-- Witness for the amended C9 theorem: in a 16-byte scalar-only struct
with two 4-byte fields, the second followed by 8 padding bytes, byte 12
(outside every setter write) and byte 11 (a padding byte of the second
field) are both zero even for setters writing 255 everywhere. -/
theorem genStruct_constructor_zeroes_padding_witness :
    structNewBytes
        ⟨"Vec3", 4, 16,
         [⟨strBytes "x", .scalar 4, 0⟩, ⟨strBytes "y", .scalar 4, 8⟩]⟩
        (fun _ _ => 255) 12 = 0 ∧
    structNewBytes
        ⟨"Vec3", 4, 16,
         [⟨strBytes "x", .scalar 4, 0⟩, ⟨strBytes "y", .scalar 4, 8⟩]⟩
        (fun _ _ => 255) (4 + SizeOfBase (.scalar 4) + 3) = 0 :=
  ⟨genStruct_constructor_zeroes_padding.1
      ⟨"Vec3", 4, 16,
       [⟨strBytes "x", .scalar 4, 0⟩, ⟨strBytes "y", .scalar 4, 8⟩]⟩
      (fun _ _ => 255) 12 (by decide),
   genStruct_constructor_zeroes_padding.2
      ⟨"Vec3", 4, 16,
       [⟨strBytes "x", .scalar 4, 0⟩, ⟨strBytes "y", .scalar 4, 8⟩]⟩
      (fun _ _ => 255) (by decide)
      (4, ⟨strBytes "y", .scalar 4, 8⟩) (by decide) 3 (by decide)⟩

end IdlGenRust
